import Mathlib

/-!
Shallow embedding of the sitemapExport crawler (Go) for specification checking.

The embedding translates the repository's Go source into Lean:
  * `crawler/crawler.go` — URL filtering, relative-URL rewriting, the
    content-transformation pipeline, and the sitemap/RSS crawl loops;
  * `html2text/html2text.go` — the recursive DOM-to-plain-text renderer;
  * `feed.go` (the `DetectFeedType` variant reading URL-or-file sources with
    an HTTP status check) — feed-type detection.

External collaborators that are not part of the repository (Go's `net/url`
parsing and reference resolution, the `sanitize` allow-list filter, the
HTML-to-Markdown converter, entity decoding, and the HTTP client) are either
modelled from their documented behaviour or taken as function parameters, as
noted on each definition.
-/

namespace SitemapExport

/-! ## Model of Go `net/url` (external collaborator)

Modelled from the spec: Go's `net/url` package is not part of the repository
source; the definitions below model `url.Parse`, `URL.String` and
`URL.ResolveReference` ("standard relative-URL resolution") closely enough
for the crawler's uses: scheme/host/path/query/fragment splitting,
percent-decoding of the path (failing on an invalid escape, as Go does),
rejection of ASCII control characters, and RFC 3986 dot-segment resolution.
Host sub-structure (userinfo, port validation) and re-escaping on printing
are not modelled. -/

/-- Character-list form of Go's `strings.HasPrefix`: does the first list
start with the second? -/
def listStartsWith : List Char → List Char → Bool
  | _, [] => true
  | [], _ :: _ => false
  | c :: cs, d :: ds => c = d && listStartsWith cs ds

/-- Go's `strings.HasPrefix`. -/
def strStartsWith (s t : String) : Bool :=
  listStartsWith s.toList t.toList

/-- Go's `strings.HasSuffix`. -/
def strEndsWith (s t : String) : Bool :=
  listStartsWith s.toList.reverse t.toList.reverse

/-- Go's `strings.TrimSuffix`: remove one occurrence of the suffix, when
present. -/
def trimSuffixStr (s t : String) : String :=
  if strEndsWith s t then String.mk (s.toList.take (s.toList.length - t.toList.length))
  else s

/-- Go's `strings.TrimPrefix`: remove one occurrence of the leading part,
when present. -/
def trimStartStr (s t : String) : String :=
  if strStartsWith s t then String.mk (s.toList.drop t.toList.length)
  else s

/-- ASCII control characters, which Go's `url.Parse` rejects. -/
def isCtlChar (c : Char) : Bool := c.toNat < 32 || c.toNat == 127

/-- Value of a hexadecimal digit, `none` for a non-hex character. -/
def hexDigitVal (c : Char) : Option Nat :=
  if '0' ≤ c ∧ c ≤ '9' then some (c.toNat - 48)
  else if 'a' ≤ c ∧ c ≤ 'f' then some (c.toNat - 87)
  else if 'A' ≤ c ∧ c ≤ 'F' then some (c.toNat - 55)
  else none

/-- Percent-decoding of a URL component; fails on an invalid escape,
as Go's `url.unescape` does. -/
def percentDecode : List Char → Option (List Char)
  | [] => some []
  | '%' :: rest =>
    match rest with
    | a :: b :: rest2 =>
      match hexDigitVal a, hexDigitVal b with
      | some x, some y =>
        match percentDecode rest2 with
        | some tail => some (Char.ofNat (16 * x + y) :: tail)
        | none => none
      | _, _ => none
    | _ => none
  | c :: rest =>
    match percentDecode rest with
    | some tail => some (c :: tail)
    | none => none

/-- Split a character list at the first occurrence of `c`; the second
component is `none` when `c` does not occur. -/
def splitOnFirst (c : Char) : List Char → List Char × Option (List Char)
  | [] => ([], none)
  | x :: xs =>
    if x = c then ([], some xs)
    else
      let (a, b) := splitOnFirst c xs
      (x :: a, b)

def isAlphaChar (c : Char) : Bool :=
  ('a' ≤ c && c ≤ 'z') || ('A' ≤ c && c ≤ 'Z')

def isSchemeChar (c : Char) : Bool :=
  isAlphaChar c || c.isDigit || c == '+' || c == '-' || c == '.'

/-- Scheme detection, after Go's `getScheme`: returns the scheme and the
remainder when the string starts with `alpha (alphanum|+|-|.)* ":"`,
`none` as the first component when there is no scheme, and an overall
failure (`none`) for a leading `":"` (Go's "missing protocol scheme"). -/
def findScheme (s : List Char) : Option (Option (List Char) × List Char) :=
  go [] s
where
  go (acc : List Char) : List Char → Option (Option (List Char) × List Char)
    | [] => some (none, s)
    | c :: rest =>
      if isAlphaChar c then go (acc ++ [c]) rest
      else if c = ':' then
        if acc.isEmpty then none else some (some acc, rest)
      else if isSchemeChar c then
        if acc.isEmpty then some (none, s) else go (acc ++ [c]) rest
      else some (none, s)

/-- A parsed URL, after Go's `url.URL` (userinfo and port sub-structure
omitted). `path` is stored percent-decoded, as Go's `URL.Path` is. -/
structure GoURL where
  scheme : String
  opq : String
  host : String
  path : String
  query : String
  fragment : String
deriving DecidableEq, Repr

/-- `url.Parse`, modelled: reject control characters, split the fragment at
the first `#`, detect the scheme, split the query at the first `?`, then
read `//authority` and the path; percent-decoding failures in path or
fragment make the whole parse fail. -/
def parseGoURL (s : String) : Option GoURL :=
  let cs := s.toList
  if cs.any isCtlChar then none
  else
    let (beforeFrag, fragO) := splitOnFirst '#' cs
    match percentDecode (fragO.getD []) with
    | none => none
    | some frag =>
      match findScheme beforeFrag with
      | none => none
      | some (schemeO, rest) =>
        let scheme := String.mk (schemeO.getD [])
        let (beforeQuery, queryO) := splitOnFirst '?' rest
        let query := String.mk (queryO.getD [])
        match beforeQuery with
        | '/' :: '/' :: afterSlashes =>
          let (auth, pathO) := splitOnFirst '/' afterSlashes
          let rawPath := match pathO with
            | some p => '/' :: p
            | none => []
          match percentDecode rawPath with
          | none => none
          | some path =>
            some ⟨scheme, "", String.mk auth, String.mk path, query, String.mk frag⟩
        | _ =>
          if scheme ≠ "" ∧ beforeQuery ≠ [] ∧ beforeQuery.head? ≠ some '/' then
            some ⟨scheme, String.mk beforeQuery, "", "", query, String.mk frag⟩
          else
            match percentDecode beforeQuery with
            | none => none
            | some path =>
              some ⟨scheme, "", "", String.mk path, query, String.mk frag⟩

/-- `URL.IsAbs`: a URL is absolute exactly when it has a scheme. -/
def GoURL.isAbs (u : GoURL) : Bool := u.scheme ≠ ""

/-- The part of `s` up to and including its last `/`, empty when `s` has
no slash (Go's `base[:strings.LastIndex(base, "/")+1]`). -/
def upToLastSlash (s : String) : String :=
  String.mk ((s.toList.reverse.dropWhile (fun c => c ≠ '/')).reverse)

/-- Splitting a character list on a separator character, as Go's
`strings.Split` with a one-character separator. -/
def splitOnChar (c : Char) : List Char → List (List Char)
  | [] => [[]]
  | x :: xs =>
    if x = c then [] :: splitOnChar c xs
    else
      match splitOnChar c xs with
      | [] => [[x]]
      | g :: gs => (x :: g) :: gs

/-- Joining with `/`, as Go's `strings.Join(dst, "/")`. -/
def joinWithSlash : List (List Char) → List Char
  | [] => []
  | [p] => p
  | p :: rest => p ++ '/' :: joinWithSlash rest

/-- Dot-segment resolution, after Go's `resolvePath`: merge `ref` onto
`base`, then process `.` and `..` segments; the result of a non-empty
merge always starts with `/`. -/
def resolvePath (base ref : String) : String :=
  let full :=
    if ref = "" then base
    else if ¬ strStartsWith ref "/" then upToLastSlash base ++ ref
    else ref
  if full = "" then ""
  else
    let src := splitOnChar '/' full.toList
    let dst := src.foldl
      (fun dst e =>
        if e = ['.'] then dst
        else if e = ['.', '.'] then dst.dropLast
        else dst ++ [e])
      ([] : List (List Char))
    let dst :=
      match src.getLast? with
      | some l => if l = ['.'] ∨ l = ['.', '.'] then dst ++ [[]] else dst
      | none => dst
    let joined := String.mk (joinWithSlash dst)
    "/" ++ trimStartStr joined "/"

/-- `URL.ResolveReference`, modelled from Go: an absolute reference (or one
with its own host) wins outright; an opaque reference wins; otherwise the
base supplies scheme and host and the paths are merged with dot-segment
resolution, an empty reference keeping the base's query. -/
def GoURL.resolveReference (u ref : GoURL) : GoURL :=
  let url := if ref.scheme = "" then { ref with scheme := u.scheme } else ref
  if ref.scheme ≠ "" ∨ ref.host ≠ "" then
    { url with path := resolvePath ref.path "" }
  else if ref.opq ≠ "" then url
  else
    let url :=
      if ref.path = "" ∧ ref.query = "" then
        { url with
            query := u.query
            fragment := if ref.fragment = "" then u.fragment else ref.fragment }
      else url
    { url with host := u.host, path := resolvePath u.path ref.path }

/-- `URL.String`, modelled (without re-escaping): scheme, `//host`,
path, `?query`, `#fragment`. -/
def GoURL.toStr (u : GoURL) : String :=
  (if u.scheme ≠ "" then u.scheme ++ ":" else "")
  ++ (if u.opq ≠ "" then u.opq
      else
        (if (u.scheme ≠ "" ∨ u.host ≠ "") ∧ (u.host ≠ "" ∨ u.path ≠ "") then
          "//" ++ u.host
         else "")
        ++ u.path)
  ++ (if u.query ≠ "" then "?" ++ u.query else "")
  ++ (if u.fragment ≠ "" then "#" ++ u.fragment else "")

/-! ## URL filtering (`crawler/crawler.go`: `matchesFilter`) -/

/-- `matchesFilter` from `crawler/crawler.go`: `""` and `"*"` match every
URL; otherwise parse the URL (an unparsable URL never matches), strip one
trailing `*` from the filter (`strings.TrimSuffix`), trim one leading `/`
from the parsed path (`strings.TrimPrefix`), and test `strings.HasPrefix`. -/
def matchesFilter (pageURL filterStr : String) : Bool :=
  if filterStr = "" ∨ filterStr = "*" then true
  else
    match parseGoURL pageURL with
    | none => false
    | some parsed =>
      let f := trimSuffixStr filterStr "*"
      let path := trimStartStr parsed.path "/"
      strStartsWith path f

/-- The spec's reference definition of the URL filter, written from the
spec's words: empty string or `"*"` matches every URL; any other value has
a single trailing `*` stripped, the candidate URL's path has its leading
`/` trimmed, and a match requires the trimmed path to start with the
filter string. -/
def matchesFilterSpec (pageURL filterStr : String) : Bool :=
  if filterStr = "" ∨ filterStr = "*" then true
  else
    let f := trimSuffixStr filterStr "*"
    let path := ((parseGoURL pageURL).map GoURL.path).getD ""
    strStartsWith (trimStartStr path "/") f

/-! ## Whitespace normalization (`crawler/crawler.go`:
`removeExcessNewlines`, `collapseSpaces`) -/

/-- The character class of Go's regexp `\s`: `[\t\n\f\r ]`. -/
def isGoSpace (c : Char) : Bool :=
  c == ' ' || c == '\t' || c == '\n' || Char.toNat c == 12 || c == '\r'

/-- Go's `strings.ReplaceAll` for a non-empty pattern, over character
lists: replace every occurrence of `pat` by `repl`, left to right. -/
def replaceAllList (pat repl : List Char) : List Char → List Char
  | [] => []
  | c :: rest =>
    if h : listStartsWith (c :: rest) pat ∧ pat ≠ [] then
      repl ++ replaceAllList pat repl ((c :: rest).drop pat.length)
    else c :: replaceAllList pat repl rest
termination_by l => l.length
decreasing_by
  all_goals simp only [List.length_cons, List.length_drop]
  · have : 1 ≤ pat.length := by
      cases hp : pat with
      | nil => exact absurd hp h.2
      | cons d ds => simp
    omega
  · omega

/-- Replacement of every run of two or more `\s` characters by a single
space, after `reCollapseSpaces = regexp.MustCompile` of `\s` repeated at
least twice (leftmost-longest matching: a lone whitespace character is
left as it is). -/
def collapseSpacesList : List Char → List Char
  | [] => []
  | c :: rest =>
    if isGoSpace c then
      let run := c :: rest.takeWhile isGoSpace
      let rest2 := rest.dropWhile isGoSpace
      (if 2 ≤ run.length then [' '] else run) ++ collapseSpacesList rest2
    else c :: collapseSpacesList rest
termination_by l => l.length
decreasing_by
  all_goals simp only [List.length_cons]
  · exact Nat.lt_succ_of_le ((List.dropWhile_sublist _).length_le)
  · exact Nat.lt_succ_of_le (Nat.le_refl _)

/-- `collapseSpaces` from `crawler/crawler.go`. -/
def collapseSpaces (content : String) : String :=
  String.mk (collapseSpacesList content.toList)

/-- Replacement of every run of three or more newlines by exactly two,
after `reExcessNewlines = regexp.MustCompile` of `\n` repeated at least
three times. -/
def collapseNewlinesList : List Char → List Char
  | [] => []
  | c :: rest =>
    if c = '\n' then
      let run := c :: rest.takeWhile (fun d => d = '\n')
      let rest2 := rest.dropWhile (fun d => d = '\n')
      (if 3 ≤ run.length then ['\n', '\n'] else run) ++ collapseNewlinesList rest2
    else c :: collapseNewlinesList rest
termination_by l => l.length
decreasing_by
  all_goals simp only [List.length_cons]
  · exact Nat.lt_succ_of_le ((List.dropWhile_sublist _).length_le)
  · exact Nat.lt_succ_of_le (Nat.le_refl _)

/-- `removeExcessNewlines` from `crawler/crawler.go`: normalize `\r\n` and
`\r` to `\n`, collapse whitespace runs, then collapse newline runs. -/
def removeExcessNewlines (content : String) : String :=
  let content := String.mk (replaceAllList ['\r', '\n'] ['\n'] content.toList)
  let content := String.mk (replaceAllList ['\r'] ['\n'] content.toList)
  let content := collapseSpaces content
  String.mk (collapseNewlinesList content.toList)

/-! ## Content transformation (`crawler/crawler.go`:
`extractAndTransformContentFromText`) -/

/-- Errors of the content-transformation step, named after the spec's
error kinds. -/
inductive TransformError where
  | sanitizeError (msg : String)
  | markdownConversionError (msg : String)
  | textConversionError (msg : String)
  | unsupportedFormat (format : String)
deriving DecidableEq, Repr

/-- The external collaborators `extractAndTransformContentFromText` calls:
`html.UnescapeString`, `sanitize.HTMLAllowing` (returning its output string
and, as `Option`, its error), the html-to-markdown `ConvertString`, and
`html2text.Convert`. None of these is fixed by the function's own code, so
they are parameters of the embedding. -/
structure ExternalTransforms where
  unescapeString : String → String
  sanitizeHTMLAllowing : String → String × Option String
  convertToMarkdown : String → Except String String
  convertToText : String → Except String String

/-- `extractAndTransformContentFromText` from `crawler/crawler.go`
(the current version, lines 247–274): decode entities, sanitize —
discarding the sanitizer's error, as the source's
`sanitizedContent, _ := sanitize.HTMLAllowing(...)` does — normalize
whitespace, then branch on the requested format. -/
def extractAndTransformContentFromText (ext : ExternalTransforms)
    (content format : String) : Except TransformError String :=
  let decodedContent := ext.unescapeString content
  let sanitizedContent := (ext.sanitizeHTMLAllowing decodedContent).1
  let sanitizedContent := removeExcessNewlines sanitizedContent
  match format with
  | "html" => .ok sanitizedContent
  | "md" =>
    match ext.convertToMarkdown sanitizedContent with
    | .ok mdContent => .ok mdContent
    | .error e => .error (.markdownConversionError e)
  | "txt" =>
    match ext.convertToText sanitizedContent with
    | .ok textContent => .ok textContent
    | .error e => .error (.textConversionError e)
  | _ => .error (.unsupportedFormat format)

/-! ## Feed-type detection (`feed.go`: `DetectFeedType`, the variant that
reads URL-or-file sources and checks the HTTP status) -/

/-- An HTTP response as `DetectFeedType` consumes it: status code and body. -/
structure HTTPResponse where
  status : Nat
  body : String
deriving DecidableEq, Repr

/-- Errors of feed detection, named after the spec's error kinds. -/
inductive FeedError where
  | fetchError (msg : String)
  | httpStatusError (code : Nat)
  | xmlDecodeError (msg : String)
  | unknownFeedType (source : String)
deriving DecidableEq, Repr

/-- The source test `strings.HasPrefix(feedSource, "http://") ||
strings.HasPrefix(feedSource, "https://")` used by the crawler and the
detector to distinguish URLs from file paths. -/
def hasHTTPScheme (s : String) : Bool :=
  strStartsWith s "http://" || strStartsWith s "https://"

/-- `DetectFeedType` from `feed.go`: for an `http(s)` source fetch the URL
(any transport failure is a fetch error, a status other than 200 OK is a
status error raised before the body is decoded); for any other source read
the file; then decode only the XML root element's name and map `urlset` to
`"sitemap"`, `rss` to `"rss"`, and anything else to an unknown-feed-type
error. The HTTP client (`httpGet`), the file system (`openFile`) and the
`encoding/xml` root-name decoding (`decodeRootLocal`) are external
collaborators, passed as parameters. -/
def DetectFeedType (httpGet : String → Except String HTTPResponse)
    (openFile : String → Except String String)
    (decodeRootLocal : String → Except String String)
    (feedSource : String) : Except FeedError String :=
  let bodyE : Except FeedError String :=
    if hasHTTPScheme feedSource then
      match httpGet feedSource with
      | .error e => .error (.fetchError e)
      | .ok res =>
        if res.status ≠ 200 then .error (.httpStatusError res.status)
        else .ok res.body
    else
      match openFile feedSource with
      | .error e => .error (.fetchError e)
      | .ok contents => .ok contents
  match bodyE with
  | .error e => .error e
  | .ok body =>
    match decodeRootLocal body with
    | .error e => .error (.xmlDecodeError e)
    | .ok rootLocal =>
      if rootLocal = "urlset" then .ok "sitemap"
      else if rootLocal = "rss" then .ok "rss"
      else .error (.unknownFeedType feedSource)

/-! ## Crawl loops (`crawler/crawler.go`: `CrawlSitemap`, `CrawlRSS`) -/

/-- `Page` from `crawler/crawler.go`. -/
structure Page where
  Title : String
  URL : String
  Description : String
  Tags : List String
  Content : String
deriving DecidableEq, Repr

/-- `RSSItem` from `crawler/crawler.go`. -/
structure RSSItem where
  Title : String
  Link : String
  Description : String
deriving DecidableEq, Repr

/-- The per-URL loop of `CrawlSitemap` (lines 89–103): skip a URL that
fails the filter; call `extractPage` (a parameter: it performs the page
fetch); on error log and skip; on success append the page. -/
def crawlSitemapLoop (extractPage : String → Except String Page)
    (filter : String) (urls : List String) : List Page :=
  urls.foldl
    (fun pages pageURL =>
      if ¬ matchesFilter pageURL filter then pages
      else
        match extractPage pageURL with
        | .error _ => pages
        | .ok page => pages ++ [page])
    []

/-- `CrawlSitemap` after the sitemap body has been read: a feed-level
parse failure (`feedParse = .error`) aborts; otherwise the per-URL loop
runs and the accumulated pages are returned without error. -/
def CrawlSitemap (feedParse : Except String (List String))
    (extractPage : String → Except String Page) (filter : String) :
    Except String (List Page) :=
  match feedParse with
  | .error e => .error e
  | .ok urls => .ok (crawlSitemapLoop extractPage filter urls)

/-- The per-item loop of `CrawlRSS` (lines 146–167): skip an item with an
empty link, skip a link that fails the filter, skip on extraction error;
on success overwrite the page's description with the feed item's
description and append. -/
def crawlRSSLoop (extractPage : String → Except String Page)
    (filter : String) (items : List RSSItem) : List Page :=
  items.foldl
    (fun pages item =>
      if item.Link = "" then pages
      else if ¬ matchesFilter item.Link filter then pages
      else
        match extractPage item.Link with
        | .error _ => pages
        | .ok page => pages ++ [{ page with Description := item.Description }])
    []

/-- `CrawlRSS` after the RSS body has been read: a feed-level decode
failure aborts; otherwise the per-item loop runs and the accumulated pages
are returned without error. -/
def CrawlRSS (feedDecode : Except String (List RSSItem))
    (extractPage : String → Except String Page) (filter : String) :
    Except String (List Page) :=
  match feedDecode with
  | .error e => .error e
  | .ok items => .ok (crawlRSSLoop extractPage filter items)

/-! ## DOM nodes

The DOM consumed by the crawler and the text renderer, as the spec's data
model describes it: an element (tag name, attribute mapping, ordered child
nodes) or a text node. -/

inductive Node where
  | elem (tag : String) (attrs : List (String × String)) (children : List Node)
  | text (s : String)
deriving Repr

/-- `goquery.NodeName`: the tag for an element, `#text` for a text node. -/
def nodeName : Node → String
  | .elem tag _ _ => tag
  | .text _ => "#text"

def isElemNode : Node → Bool
  | .elem _ _ _ => true
  | .text _ => false

/-- All child nodes of a node (goquery's `Contents()`). -/
def childNodes : Node → List Node
  | .elem _ _ cs => cs
  | .text _ => []

/-- First value of the named attribute (goquery's `Attr`). -/
def getAttrVal (attrs : List (String × String)) (name : String) : Option String :=
  (attrs.find? (fun p => p.1 = name)).map Prod.snd

/-- goquery's `SetAttr`: replace the value of an existing attribute, or
append the attribute when absent. -/
def setAttrVal (attrs : List (String × String)) (name value : String) :
    List (String × String) :=
  if attrs.any (fun p => p.1 = name) then
    attrs.map (fun p => if p.1 = name then (p.1, value) else p)
  else attrs ++ [(name, value)]

/-- `Node.attr n name`: the node's attribute value, as goquery's `Attr`. -/
def Node.attr (n : Node) (name : String) : Option String :=
  match n with
  | .elem _ attrs _ => getAttrVal attrs name
  | .text _ => none

mutual

/-- The concatenated text of all descendant text nodes (goquery's
`Text()`). -/
def textOf : Node → String
  | .text s => s
  | .elem _ _ cs => textOfList cs

/-- List form of `textOf`. -/
def textOfList : List Node → String
  | [] => ""
  | n :: rest => textOf n ++ textOfList rest

end

/-! ## Relative-URL rewriting (`crawler/crawler.go`: `isRelativeURL`,
`isAnchorLink`, `getDomainFromURL`, `toAbsoluteURL`, `fixRelativeUrls`) -/

/-- `isRelativeURL`: the URL parses and `!u.IsAbs()`. -/
def isRelativeURL (link : String) : Bool :=
  match parseGoURL link with
  | some u => ¬ u.isAbs
  | none => false

/-- `isAnchorLink`: non-empty and the first character is `#`. -/
def isAnchorLink (link : String) : Bool :=
  strStartsWith link "#"

/-- `getDomainFromURL`: the scheme and host of the page URL, formatted
`scheme://host` (`none` when the URL does not parse). -/
def getDomainFromURL (pageURL : String) : Option String :=
  (parseGoURL pageURL).map (fun u => u.scheme ++ "://" ++ u.host)

/-- `toAbsoluteURL`: resolve the reference against the host URL with
`ResolveReference`; if either fails to parse, return the reference
unchanged. -/
def toAbsoluteURL (host relativeURL : String) : String :=
  match parseGoURL relativeURL with
  | none => relativeURL
  | some u =>
    match parseGoURL host with
    | none => relativeURL
    | some baseURL => (baseURL.resolveReference u).toStr

/-- The per-attribute step of `fixRelativeUrls`'s `convertToAbsolute`
closure: rewrite the named attribute when it exists, is relative and is
not an in-page anchor. -/
def convertAttrToAbsolute (hostDomain : String)
    (attrs : List (String × String)) (attrName : String) :
    List (String × String) :=
  match getAttrVal attrs attrName with
  | some v =>
    if isRelativeURL v ∧ ¬ isAnchorLink v then
      setAttrVal attrs attrName (toAbsoluteURL hostDomain v)
    else attrs
  | none => attrs

/-- The attribute rewriting `fixRelativeUrls` applies to one element:
`href` on `a` elements, `src` on `img` elements, nothing elsewhere. -/
def fixElemAttrs (hostDomain tag : String)
    (attrs : List (String × String)) : List (String × String) :=
  if tag = "a" then convertAttrToAbsolute hostDomain attrs "href"
  else if tag = "img" then convertAttrToAbsolute hostDomain attrs "src"
  else attrs

mutual

/-- `fixRelativeUrls` from `crawler/crawler.go`: rewrite every `a`
element's relative non-anchor `href` and every `img` element's relative
non-anchor `src` throughout the document (the source runs one
`doc.Find` pass per tag; the two passes touch disjoint attributes, so a
single traversal is equivalent). -/
def fixRelativeUrls (hostDomain : String) : Node → Node
  | .text s => .text s
  | .elem tag attrs cs =>
    .elem tag (fixElemAttrs hostDomain tag attrs)
      (fixRelativeUrlsList hostDomain cs)

/-- List form of `fixRelativeUrls`. -/
def fixRelativeUrlsList (hostDomain : String) : List Node → List Node
  | [] => []
  | n :: rest =>
    fixRelativeUrls hostDomain n :: fixRelativeUrlsList hostDomain rest

end

/-! ## Sanitization allow-list (`crawler/crawler.go` lines 43–44, and a
token-level model of `sanitize.HTMLAllowing`) -/

/-- `allowedAttributes` from `crawler/crawler.go`. -/
def allowedAttributes : List String :=
  ["href", "src", "size", "width", "alt", "title", "colspan"]

/-- `allowedTags` from `crawler/crawler.go`. -/
def allowedTags : List String :=
  ["h1", "h2", "h3", "h4", "h5", "h6", "hr", "p", "br", "b", "i", "strong",
   "em", "ol", "ul", "li", "a", "img", "pre", "code", "blockquote", "tr",
   "td", "th", "table"]

/-- One HTML token, as the `sanitize` library's tokenizer-based filter
consumes them. -/
inductive HTMLTok where
  | startTag (name : String) (attrs : List (String × String))
  | endTag (name : String)
  | textTok (s : String)
deriving DecidableEq, Repr

/-- Modelled from the spec: the third-party `sanitize.HTMLAllowing` filter
(library code, not under `src/`), at token level. A start or end tag
survives exactly when its name is in the tag allow-list, a surviving start
tag keeps exactly its allow-listed attributes, and text is retained.
(The library additionally drops the inner text of `script`/`style` and
escapes text tokens; neither affects which tags or attributes appear.) -/
def sanitizeHTMLAllowingToks (toks : List HTMLTok) : List HTMLTok :=
  toks.filterMap
    (fun t =>
      match t with
      | .startTag name attrs =>
        if name ∈ allowedTags then
          some (.startTag name (attrs.filter (fun p => p.1 ∈ allowedAttributes)))
        else none
      | .endTag name =>
        if name ∈ allowedTags then some (.endTag name) else none
      | .textTok s => some (.textTok s))

/-- Tag names occurring in a token stream. -/
def tagNamesOf (toks : List HTMLTok) : List String :=
  toks.filterMap
    (fun t =>
      match t with
      | .startTag name _ => some name
      | .endTag name => some name
      | .textTok _ => none)

/-- Attribute names occurring in a token stream. -/
def attrNamesOf (toks : List HTMLTok) : List String :=
  toks.flatMap
    (fun t =>
      match t with
      | .startTag _ attrs => attrs.map Prod.fst
      | .endTag _ => []
      | .textTok _ => [])

/-- The output of the content transformation, at token level: a token
stream for the `html` format, converter output otherwise. -/
inductive TransformOut where
  | htmlOut (toks : List HTMLTok)
  | textOut (s : String)
deriving DecidableEq, Repr

/-- Token-level mirror of `extractAndTransformContentFromText`: sanitize
first, then branch on the format, handing only the sanitized stream to
the Markdown or text converter (entity decoding and whitespace
normalization, which neither add nor remove tags, are not represented at
this level). -/
def extractAndTransformTokens
    (mdConv txtConv : List HTMLTok → Except String String)
    (toks : List HTMLTok) (format : String) :
    Except TransformError TransformOut :=
  let sanitized := sanitizeHTMLAllowingToks toks
  match format with
  | "html" => .ok (.htmlOut sanitized)
  | "md" =>
    match mdConv sanitized with
    | .ok m => .ok (.textOut m)
    | .error e => .error (.markdownConversionError e)
  | "txt" =>
    match txtConv sanitized with
    | .ok t => .ok (.textOut t)
    | .error e => .error (.textConversionError e)
  | _ => .error (.unsupportedFormat format)

/-! ## DOM-to-plain-text rendering (`html2text/html2text.go`)

The renderer is embedded with an explicit accumulator: each handler takes
the text built so far and returns the extended text, mirroring the Go
code's `strings.Builder` (the builder's current contents matter — the
list handler inspects its suffix). -/

/-- Newline removal applied to a non-`pre` element's text
(`strings.ReplaceAll(text, "\n", "")` and the same for `\r`). -/
def stripNewlines (s : String) : String :=
  String.mk (s.toList.filter (fun c => c ≠ '\n' ∧ c ≠ '\r'))

mutual

/-- All `tr` descendant elements in document order (goquery's
`Find("tr")` on a table selection searches descendants only). -/
def trDescendants : Node → List Node
  | .text _ => []
  | .elem _ _ cs => trDescendantsList cs

/-- List form of `trDescendants`, including roots named `tr`. -/
def trDescendantsList : List Node → List Node
  | [] => []
  | n :: rest =>
    (match n with
     | .elem tag _ cs =>
       (if tag = "tr" then [n] else []) ++ trDescendantsList cs
     | .text _ => []) ++ trDescendantsList rest

end

/-- `handleTableCell`: the cell's text, trimmed
(`strings.TrimSpace`). -/
def handleTableCell (acc : String) (cell : Node) : String :=
  acc ++ (textOf cell).trim

/-- Loop of `handleTableRow` over the row's element children, separating
cells with `" | "`. -/
def handleCellsLoop (acc : String) (cells : List Node) (first : Bool) : String :=
  match cells with
  | [] => acc
  | c :: rest =>
    if isElemNode c then
      let acc1 := if ¬ first then acc ++ " | " else acc
      handleCellsLoop (handleTableCell acc1 c) rest false
    else handleCellsLoop acc rest first

/-- `handleTableRow` from `html2text/html2text.go`. -/
def handleTableRow (acc : String) (row : Node) : String :=
  handleCellsLoop acc (childNodes row) true

/-- `handleTable` from `html2text/html2text.go`: one pipe-separated line
per `tr` descendant, then an extra line break after the table. -/
def handleTable (acc : String) (s : Node) : String :=
  let acc :=
    (trDescendantsList (childNodes s)).foldl
      (fun a row => handleTableRow a row ++ "\n") acc
  acc ++ "\n"

/-- `handleAnchor` from `html2text/html2text.go`: `text (href) ` when an
`href` exists and does not start with `#`, bare text otherwise. -/
def handleAnchor (acc : String) (s : Node) : String :=
  let text := textOf s
  match s.attr "href" with
  | some href =>
    if ¬ strStartsWith href "#" then acc ++ text ++ " (" ++ href ++ ") "
    else acc ++ text
  | none => acc ++ text

/-- `handleImage` from `html2text/html2text.go`: emits nothing without a
`src`; otherwise `Image: alt (src)` or `Image: (src)` between blank
lines. -/
def handleImage (acc : String) (s : Node) : String :=
  match s.attr "src" with
  | some src =>
    (match s.attr "alt" with
     | some alt => acc ++ "\nImage: " ++ alt ++ " (" ++ src ++ ")\n"
     | none => acc ++ "\nImage: (" ++ src ++ ")\n") ++ "\n"
  | none => acc

/-- The heading names dispatched to the underline-rendering branch. -/
def isHeadingTag (t : String) : Bool :=
  t = "h1" ∨ t = "h2" ∨ t = "h3" ∨ t = "h4" ∨ t = "h5" ∨ t = "h6"

/-- `strings.Repeat("   ", indent)`: the three-space indentation of
nested list items. -/
def listIndent (indent : Nat) : String :=
  String.mk (List.replicate (3 * indent) ' ')

mutual

/-- `handleElement` from `html2text/html2text.go`: clean the element's
text of line breaks unless it is `pre`, dispatch on the tag name (a text
node's name is `#text`, which falls to the default branch: emit the
cleaned text; a text node has no children), and recurse into element
children except under `pre`, `table`, `ul` and `ol`. The dash underline
of a heading uses the text's byte length (Go's `len`). -/
def handleElement (acc : String) (s : Node) (indent : Nat) : String :=
  match s with
  | .text str => acc ++ stripNewlines str
  | .elem tag attrs cs =>
    let rawText := textOfList cs
    let text := if tag ≠ "pre" then stripNewlines rawText else rawText
    let acc2 :=
      if isHeadingTag tag then
        acc ++ "\n" ++ text ++ "\n"
          ++ String.mk (List.replicate text.utf8ByteSize '-') ++ "\n"
      else if tag = "p" then acc ++ text ++ "\n\n"
      else if tag = "ul" then handleList acc cs indent false
      else if tag = "ol" then handleList acc cs indent true
      else if tag = "li" then acc
      else if tag = "br" then acc ++ "\n"
      else if tag = "table" then handleTable acc (.elem tag attrs cs)
      else if tag = "a" then handleAnchor acc (.elem tag attrs cs)
      else if tag = "img" then handleImage acc (.elem tag attrs cs)
      else if tag = "pre" then acc ++ "CODE:\n" ++ rawText ++ "\n"
      else acc ++ text
    if tag ≠ "pre" ∧ tag ≠ "table" ∧ tag ≠ "ul" ∧ tag ≠ "ol" then
      handleChildren acc2 cs indent
    else acc2
termination_by (sizeOf s, 0)

/-- The recursion of `handleElement` over `s.Children()` (element
children only). -/
def handleChildren (acc : String) (cs : List Node) (indent : Nat) : String :=
  match cs with
  | [] => acc
  | n :: rest =>
    handleChildren (if isElemNode n then handleElement acc n indent else acc)
      rest indent
termination_by (sizeOf cs, 0)

/-- `handleList` from `html2text/html2text.go`, applied to the list
element's children (the Go code receives the `ul`/`ol` selection and only
reads its `Children()`): render the items, then append one line break
when rendering at depth 0 and the text built so far does not already end
in a blank line. -/
def handleList (acc : String) (cs : List Node) (indent : Nat)
    (isOrdered : Bool) : String :=
  let acc2 := handleListItems acc cs indent isOrdered 1
  if indent = 0 ∧ ¬ strEndsWith acc2 "\n\n" then acc2 ++ "\n" else acc2
termination_by (sizeOf cs, 1)

/-- The item loop of `handleList`: each `li` child gets its indent and
`- ` or `N. ` marker, its non-list contents rendered in place, a line
break, then any nested lists at `indent + 1`; the ordered counter
advances only on ordered lists. -/
def handleListItems (acc : String) (cs : List Node) (indent : Nat)
    (isOrdered : Bool) (count : Nat) : String :=
  match cs with
  | [] => acc
  | child :: rest =>
    if isElemNode child ∧ nodeName child = "li" then
      let marker :=
        if isOrdered then listIndent indent ++ toString count ++ ". "
        else listIndent indent ++ "- "
      let acc1 := handleLiContents (acc ++ marker) (childNodes child) indent
      let acc2 := acc1 ++ "\n"
      let acc3 := handleNestedLists acc2 (childNodes child) indent
      handleListItems acc3 rest indent isOrdered
        (if isOrdered then count + 1 else count)
    else handleListItems acc rest indent isOrdered count
termination_by (sizeOf cs, 0)
decreasing_by
all_goals
  first
  | decreasing_tactic
  | (simp_wf
     apply Prod.Lex.left
     have h : ∀ m : Node, sizeOf (childNodes m) ≤ sizeOf m := fun m => by
       cases m with
       | elem t a cs => simp [childNodes]
       | text str => simp [childNodes]
     try simp only [List.cons.sizeOf_spec]
     exact lt_of_le_of_lt (h _) (by omega))

/-- The loop over an `li`'s `Contents()` (all nodes): render everything
that is not itself a `ul` or `ol`, at the same depth. -/
def handleLiContents (acc : String) (cs : List Node) (indent : Nat) : String :=
  match cs with
  | [] => acc
  | n :: rest =>
    handleLiContents
      (if nodeName n ≠ "ul" ∧ nodeName n ≠ "ol" then handleElement acc n indent
       else acc)
      rest indent
termination_by (sizeOf cs, 0)

/-- The loop over an `li`'s `Children()` rendering nested lists at
`indent + 1`. -/
def handleNestedLists (acc : String) (cs : List Node) (indent : Nat) : String :=
  match cs with
  | [] => acc
  | n :: rest =>
    let acc1 :=
      if isElemNode n ∧ nodeName n = "ul" then
        handleList acc (childNodes n) (indent + 1) false
      else if isElemNode n ∧ nodeName n = "ol" then
        handleList acc (childNodes n) (indent + 1) true
      else acc
    handleNestedLists acc1 rest indent
termination_by (sizeOf cs, 0)
decreasing_by
all_goals
  first
  | decreasing_tactic
  | (simp_wf
     apply Prod.Lex.left
     have h : ∀ m : Node, sizeOf (childNodes m) ≤ sizeOf m := fun m => by
       cases m with
       | elem t a cs => simp [childNodes]
       | text str => simp [childNodes]
     try simp only [List.cons.sizeOf_spec]
     exact lt_of_le_of_lt (h _) (by omega))

end

/-- `Convert` from `html2text/html2text.go`, applied to the parsed body's
contents: render every top-level node at depth 0 into an initially empty
builder. -/
def htmlToText (nodes : List Node) : String :=
  nodes.foldl (fun a n => handleElement a n 0) ""

/-! ## Derived forms used to state the crawl-loop properties -/

/-- The pages a single sitemap URL contributes to the crawl result. -/
def sitemapEntryPages (extractPage : String → Except String Page)
    (filter u : String) : List Page :=
  if ¬ matchesFilter u filter then []
  else
    match extractPage u with
    | .error _ => []
    | .ok page => [page]

/-- The pages a single RSS item contributes to the crawl result. -/
def rssEntryPages (extractPage : String → Except String Page)
    (filter : String) (item : RSSItem) : List Page :=
  if item.Link = "" then []
  else if ¬ matchesFilter item.Link filter then []
  else
    match extractPage item.Link with
    | .error _ => []
    | .ok page => [{ page with Description := item.Description }]

mutual

/-- The (tag, attributes) pair of every element in the tree, in document
order; used to state how `fixRelativeUrls` transforms a document. -/
def elemAttrsOf : Node → List (String × List (String × String))
  | .text _ => []
  | .elem tag attrs cs => (tag, attrs) :: elemAttrsOfList cs

/-- List form of `elemAttrsOf`. -/
def elemAttrsOfList : List Node → List (String × List (String × String))
  | [] => []
  | n :: rest => elemAttrsOf n ++ elemAttrsOfList rest

end

/-! ## Helper lemmas -/

theorem foldl_append_entries {α β : Type} (g : α → List β)
    (f : List β → α → List β) (hf : ∀ pages a, f pages a = pages ++ g a) :
    ∀ (l : List α) (acc : List β), l.foldl f acc = acc ++ l.flatMap g := by
  intro l
  induction l with
  | nil => intro acc; simp
  | cons a rest ih => intro acc; simp [hf, ih, List.append_assoc]

theorem crawlSitemapLoop_eq_flatMap (extract : String → Except String Page)
    (filter : String) (urls : List String) :
    crawlSitemapLoop extract filter urls
      = urls.flatMap (sitemapEntryPages extract filter) := by
  unfold crawlSitemapLoop
  rw [foldl_append_entries (sitemapEntryPages extract filter) _ ?_ urls []]
  · simp
  · intro pages u
    unfold sitemapEntryPages
    by_cases h : matchesFilter u filter
    · simp only [h]
      cases he : extract u <;> simp
    · simp [h]

theorem crawlRSSLoop_eq_flatMap (extract : String → Except String Page)
    (filter : String) (items : List RSSItem) :
    crawlRSSLoop extract filter items
      = items.flatMap (rssEntryPages extract filter) := by
  unfold crawlRSSLoop
  rw [foldl_append_entries (rssEntryPages extract filter) _ ?_ items []]
  · simp
  · intro pages item
    unfold rssEntryPages
    by_cases hl : item.Link = ""
    · simp [hl]
    · by_cases h : matchesFilter item.Link filter
      · simp only [hl, h]
        cases he : extract item.Link <;> simp
      · simp [hl, h]

/-! ## Claim theorems -/

/-- C4: `DetectFeedType` maps a document whose root element's local name
is `urlset` to `"sitemap"`, one whose root is `rss` to `"rss"`, and fails
with the unknown-feed-type error for every other root. -/
theorem C4_detect_feed_type_mapping (body root : String)
    (decode : String → Except String String) (h : decode body = .ok root) :
    DetectFeedType (fun _ => .error "no network") (fun _ => .ok body) decode
        "feed.xml"
      = (if root = "urlset" then .ok "sitemap"
         else if root = "rss" then .ok "rss"
         else .error (.unknownFeedType "feed.xml")) := by
  have hh : hasHTTPScheme "feed.xml" = false := rfl
  simp [DetectFeedType, hh, h]

theorem C4_witness :
    DetectFeedType (fun _ => .error "no network") (fun _ => .ok "<urlset/>")
        (fun _ => .ok "urlset") "feed.xml" = .ok "sitemap" := by
  have := C4_detect_feed_type_mapping "<urlset/>" "urlset"
    (fun _ => .ok "urlset") rfl
  simpa using this

/-- C5: for an HTTP(S) feed source whose response has a status other than
200, `DetectFeedType` fails with the HTTP-status error before the body is
decoded: the result does not depend on the body or the decoder, so no
unknown-feed-type or XML-decode error can be produced. -/
theorem C5_http_status_before_decode
    (get : String → Except String HTTPResponse)
    (openFile decode : String → Except String String)
    (source : String) (res : HTTPResponse)
    (hs : hasHTTPScheme source = true) (hg : get source = .ok res)
    (hne : res.status ≠ 200) :
    DetectFeedType get openFile decode source
      = .error (.httpStatusError res.status) := by
  simp [DetectFeedType, hs, hg, hne]

theorem C5_witness :
    DetectFeedType (fun _ => .ok ⟨404, "<urlset/>"⟩) (fun _ => .ok "x")
        (fun _ => .ok "urlset") "https://x.test/sitemap.xml"
      = .error (.httpStatusError 404) :=
  C5_http_status_before_decode _ _ _ _ ⟨404, "<urlset/>"⟩ rfl rfl (by decide)

/-- C8: once the feed body has parsed, `CrawlSitemap` and `CrawlRSS`
return without error; when every entry is skipped (filter mismatch, empty
RSS link, or per-page extraction failure) the result is the empty page
sequence, and a single page's failure never aborts the crawl. -/
theorem C8_crawl_survives_all_skipped (extract : String → Except String Page)
    (filter : String) (urls : List String) (items : List RSSItem) :
    CrawlSitemap (.ok urls) extract filter
        = .ok (crawlSitemapLoop extract filter urls)
    ∧ CrawlRSS (.ok items) extract filter
        = .ok (crawlRSSLoop extract filter items)
    ∧ ((∀ u ∈ urls, matchesFilter u filter = false ∨ ∃ e, extract u = .error e) →
        CrawlSitemap (.ok urls) extract filter = .ok [])
    ∧ ((∀ it ∈ items, it.Link = "" ∨ matchesFilter it.Link filter = false ∨
          ∃ e, extract it.Link = .error e) →
        CrawlRSS (.ok items) extract filter = .ok []) := by
  refine ⟨rfl, rfl, ?_, ?_⟩
  · intro h
    show Except.ok (crawlSitemapLoop extract filter urls) = .ok []
    rw [crawlSitemapLoop_eq_flatMap]
    congr 1
    rw [List.flatMap_eq_nil_iff]
    intro u hu
    rcases h u hu with hm | ⟨e, he⟩
    · simp [sitemapEntryPages, hm]
    · by_cases hm : matchesFilter u filter
      · simp [sitemapEntryPages, hm, he]
      · simp [sitemapEntryPages, hm]
  · intro h
    show Except.ok (crawlRSSLoop extract filter items) = .ok []
    rw [crawlRSSLoop_eq_flatMap]
    congr 1
    rw [List.flatMap_eq_nil_iff]
    intro it hit
    rcases h it hit with hl | hm | ⟨e, he⟩
    · simp [rssEntryPages, hl]
    · simp [rssEntryPages, hm]
    · by_cases hm : matchesFilter it.Link filter
      · by_cases hl : it.Link = ""
        · simp [rssEntryPages, hl]
        · simp [rssEntryPages, hl, hm, he]
      · simp [rssEntryPages, hm]

theorem C8_witness :
    CrawlSitemap (.ok ["https://x.test/about"]) (fun _ => .error "fail")
        "blog/" = .ok []
    ∧ CrawlRSS (.ok [({ Title := "t", Link := "", Description := "d" } : RSSItem)])
        (fun _ => .ok ⟨"T", "u", "d", [], "c"⟩) "" = .ok [] := by
  constructor
  · exact (C8_crawl_survives_all_skipped (fun _ => .error "fail") "blog/"
      ["https://x.test/about"] []).2.2.1
      (by
        intro u hu
        simp only [List.mem_singleton] at hu
        subst hu
        exact Or.inr ⟨"fail", rfl⟩)
  · exact (C8_crawl_survives_all_skipped (fun _ => .ok ⟨"T", "u", "d", [], "c"⟩)
      "" [] [({ Title := "t", Link := "", Description := "d" } : RSSItem)]).2.2.2
      (by
        intro it hit
        simp only [List.mem_singleton] at hit
        subst hit
        exact Or.inl rfl)

/-- C9: with a filter other than `""` and `"*"`, a candidate URL that does
not parse never matches the filter, and the sitemap crawl loop skips the
corresponding entry without fetching it (the result over the remaining
URLs is unchanged, for every extraction function). `matchesFilter` is a
total function by construction. -/
theorem C9_unparsable_url_never_matches (url filter : String)
    (extract : String → Except String Page) (rest : List String)
    (h1 : filter ≠ "") (h2 : filter ≠ "*") (hp : parseGoURL url = none) :
    matchesFilter url filter = false
    ∧ crawlSitemapLoop extract filter (url :: rest)
        = crawlSitemapLoop extract filter rest := by
  have hm : matchesFilter url filter = false := by
    unfold matchesFilter
    rw [if_neg (by simp [h1, h2])]
    simp [hp]
  refine ⟨hm, ?_⟩
  simp [crawlSitemapLoop, hm]

theorem C9_witness :
    matchesFilter "https://x.test/%zz" "blog/" = false
    ∧ crawlSitemapLoop (fun _ => .error "e") "blog/" ["https://x.test/%zz"]
        = crawlSitemapLoop (fun _ => .error "e") "blog/" [] :=
  C9_unparsable_url_never_matches "https://x.test/%zz" "blog/"
    (fun _ => .error "e") [] (by decide) (by decide) (by decide)

/-- C10: every page produced by the RSS crawl loop comes from an item
whose extraction succeeded, and its `Description` is exactly the feed
item's `Description` — the page obtained from extraction has its own
description overwritten, so an empty feed description erases any meta
description extracted from the page. -/
theorem C10_rss_description_from_feed (extract : String → Except String Page)
    (filter : String) (items : List RSSItem) (q : Page)
    (hq : q ∈ crawlRSSLoop extract filter items) :
    ∃ item ∈ items, ∃ p, extract item.Link = .ok p
      ∧ q = { p with Description := item.Description }
      ∧ q.Description = item.Description := by
  rw [crawlRSSLoop_eq_flatMap] at hq
  rw [List.mem_flatMap] at hq
  obtain ⟨item, hitem, hqe⟩ := hq
  refine ⟨item, hitem, ?_⟩
  unfold rssEntryPages at hqe
  by_cases hl : item.Link = ""
  · simp [hl] at hqe
  · rw [if_neg hl] at hqe
    by_cases hm : matchesFilter item.Link filter
    · rw [if_neg (by simp [hm])] at hqe
      cases he : extract item.Link with
      | error e => rw [he] at hqe; simp at hqe
      | ok p =>
        rw [he] at hqe
        simp only [List.mem_singleton] at hqe
        exact ⟨p, rfl, hqe, by rw [hqe]⟩
    · simp [hm] at hqe

theorem C10_witness :
    ∃ item ∈ [({ Title := "t", Link := "https://x.test/a", Description := "" } :
        RSSItem)],
      ∃ p, ((fun _ => Except.ok (⟨"T", "https://x.test/a", "meta desc", [], "c"⟩ :
              Page)) : String → Except String Page) item.Link = .ok p
        ∧ (⟨"T", "https://x.test/a", "", [], "c"⟩ : Page)
            = { p with Description := item.Description }
        ∧ (⟨"T", "https://x.test/a", "", [], "c"⟩ : Page).Description
            = item.Description :=
  C10_rss_description_from_feed
    (fun _ => .ok ⟨"T", "https://x.test/a", "meta desc", [], "c"⟩) ""
    [{ Title := "t", Link := "https://x.test/a", Description := "" }]
    ⟨"T", "https://x.test/a", "", [], "c"⟩ (by decide)

theorem listStartsWith_nil_cons (d : Char) (ds : List Char) :
    listStartsWith [] (d :: ds) = false := rfl

theorem listStartsWith_cons_inv (xs : List Char) (d : Char) (ds : List Char)
    (h : listStartsWith xs (d :: ds) = true) :
    ∃ tail, xs = d :: tail ∧ listStartsWith tail ds = true := by
  cases xs with
  | nil => simp [listStartsWith] at h
  | cons c cs =>
    unfold listStartsWith at h
    rw [Bool.and_eq_true] at h
    refine ⟨cs, ?_, h.2⟩
    have := of_decide_eq_true h.1
    rw [this]

theorem strStartsWith_empty_left (t : String) (h : t ≠ "") :
    strStartsWith "" t = false := by
  cases t with
  | mk l =>
    cases l with
    | nil => exact absurd rfl h
    | cons c cs => rfl

theorem trimSuffixStr_star_ne_empty (f : String) (h1 : f ≠ "") (h2 : f ≠ "*") :
    trimSuffixStr f "*" ≠ "" := by
  cases f with
  | mk l =>
    unfold trimSuffixStr
    by_cases he : strEndsWith (String.mk l) "*" = true
    · rw [if_pos he]
      unfold strEndsWith at he
      obtain ⟨tail, htail, -⟩ :=
        listStartsWith_cons_inv _ _ _ (by simpa using he)
      intro hc
      have hlist : (String.mk l).toList.take ((String.mk l).toList.length - 1)
          = [] := by
        have := congrArg String.toList hc
        simpa using this
      have hlen : l.length ≤ 1 := by
        rcases List.take_eq_nil_iff.mp (by simpa using hlist) with h0 | h0
        · have : l ≠ [] := by
            intro hnil
            exact h1 (by rw [hnil])
          omega
        · exact absurd h0 (by
            intro hnil
            exact h1 (by rw [hnil]))
      have hlrev : l.reverse = '*' :: tail := by simpa using htail
      have : l = ['*'] := by
        have h1' : l.reverse.length = tail.length + 1 := by
          rw [hlrev]; simp
        have h2' : tail.length = 0 := by
          simp at h1'
          omega
        have : tail = [] := List.length_eq_zero.mp h2'
        subst this
        have := congrArg List.reverse hlrev
        simpa using this
      subst this
      exact h2 rfl
    · rw [if_neg he]
      exact h1

/-- C3: `matchesFilter` coincides with the spec's reference filter
definition on every input; filter `"blog/"` accepts
`https://x.test/blog/post-1` and rejects `https://x.test/about`; the
empty filter and `"*"` match every URL. -/
theorem C3_matchesFilter_reference :
    (∀ url f, matchesFilter url f = matchesFilterSpec url f)
    ∧ matchesFilter "https://x.test/blog/post-1" "blog/" = true
    ∧ matchesFilter "https://x.test/about" "blog/" = false
    ∧ (∀ url, matchesFilter url "" = true ∧ matchesFilter url "*" = true) := by
  refine ⟨?_, by decide, by decide, fun url => ⟨by simp [matchesFilter],
    by simp [matchesFilter]⟩⟩
  intro url f
  unfold matchesFilter matchesFilterSpec
  by_cases hf : f = "" ∨ f = "*"
  · simp [hf]
  · rw [if_neg hf, if_neg hf]
    cases hp : parseGoURL url with
    | some u => simp
    | none =>
      have h1 : f ≠ "" := fun h => hf (Or.inl h)
      have h2 : f ≠ "*" := fun h => hf (Or.inr h)
      show false = strStartsWith "" (trimSuffixStr f "*")
      rw [strStartsWith_empty_left _ (trimSuffixStr_star_ne_empty f h1 h2)]

/-- C1 counterexample: with a sanitizer that reports a failure, the
current `extractAndTransformContentFromText` still returns the content
successfully — the sanitizer's error component is discarded by
`sanitizedContent, _ := sanitize.HTMLAllowing(...)`, so no
sanitize error is ever produced. -/
theorem C1_counterexample :
    (((fun s => (s, some "sanitize failed")) : String → String × Option String)
        "<p>hi</p>").2 = some "sanitize failed"
    ∧ extractAndTransformContentFromText
        ⟨fun s => s, fun s => (s, some "sanitize failed"),
         fun s => .ok s, fun s => .ok s⟩ "<p>hi</p>" "html"
      = .ok "<p>hi</p>" := by
  constructor
  · rfl
  · show Except.ok (removeExcessNewlines "<p>hi</p>") = .ok "<p>hi</p>"
    congr 1
    simp [removeExcessNewlines, collapseSpaces, replaceAllList,
      collapseSpacesList, collapseNewlinesList, isGoSpace, listStartsWith,
      String.toList]

/-- C1 (amended): the result of `extractAndTransformContentFromText`
depends only on the sanitizer's output string, never on its error
component — a sanitization failure is silently ignored and the sanitizer's
output flows into the format branch; in particular the `html` format
returns the whitespace-normalized sanitizer output unconditionally. -/
theorem C1_sanitize_error_ignored :
    (∀ ext₁ ext₂ : ExternalTransforms,
      ext₁.unescapeString = ext₂.unescapeString →
      (∀ s, (ext₁.sanitizeHTMLAllowing s).1 = (ext₂.sanitizeHTMLAllowing s).1) →
      ext₁.convertToMarkdown = ext₂.convertToMarkdown →
      ext₁.convertToText = ext₂.convertToText →
      ∀ content format, extractAndTransformContentFromText ext₁ content format
        = extractAndTransformContentFromText ext₂ content format)
    ∧ (∀ ext content, extractAndTransformContentFromText ext content "html"
        = .ok (removeExcessNewlines
            (ext.sanitizeHTMLAllowing (ext.unescapeString content)).1)) := by
  constructor
  · intro e1 e2 hun hsan hmd htxt content format
    unfold extractAndTransformContentFromText
    simp only [hun, hsan, hmd, htxt]
  · intro ext content
    rfl

theorem C1_witness :
    extractAndTransformContentFromText
        ⟨fun s => s, fun s => (s, some "sanitize failed"),
         fun s => .ok s, fun s => .ok s⟩ "<p>hi</p>" "md"
      = extractAndTransformContentFromText
        ⟨fun s => s, fun s => (s, none), fun s => .ok s, fun s => .ok s⟩
        "<p>hi</p>" "md" :=
  C1_sanitize_error_ignored.1 _ _ rfl (fun _ => rfl) rfl rfl "<p>hi</p>" "md"

theorem mem_tagNames_sanitized (toks : List HTMLTok) (nm : String)
    (h : nm ∈ tagNamesOf (sanitizeHTMLAllowingToks toks)) :
    nm ∈ allowedTags := by
  unfold tagNamesOf sanitizeHTMLAllowingToks at h
  rw [List.mem_filterMap] at h
  obtain ⟨t, ht, hg⟩ := h
  rw [List.mem_filterMap] at ht
  obtain ⟨t0, -, hf⟩ := ht
  cases t0 with
  | startTag name attrs =>
    have hf' : (if name ∈ allowedTags
        then some (HTMLTok.startTag name
          (attrs.filter (fun p => p.1 ∈ allowedAttributes)))
        else none) = some t := hf
    by_cases hn : name ∈ allowedTags
    · rw [if_pos hn] at hf'
      cases hf'
      cases hg
      exact hn
    · rw [if_neg hn] at hf'
      cases hf'
  | endTag name =>
    have hf' : (if name ∈ allowedTags
        then some (HTMLTok.endTag name) else none) = some t := hf
    by_cases hn : name ∈ allowedTags
    · rw [if_pos hn] at hf'
      cases hf'
      cases hg
      exact hn
    · rw [if_neg hn] at hf'
      cases hf'
  | textTok str =>
    have hf' : some (HTMLTok.textTok str) = some t := hf
    cases hf'
    cases hg

theorem mem_attrNames_sanitized (toks : List HTMLTok) (a : String)
    (h : a ∈ attrNamesOf (sanitizeHTMLAllowingToks toks)) :
    a ∈ allowedAttributes := by
  unfold attrNamesOf sanitizeHTMLAllowingToks at h
  rw [List.mem_flatMap] at h
  obtain ⟨t, ht, ha⟩ := h
  rw [List.mem_filterMap] at ht
  obtain ⟨t0, -, hf⟩ := ht
  cases t0 with
  | startTag name attrs =>
    have hf' : (if name ∈ allowedTags
        then some (HTMLTok.startTag name
          (attrs.filter (fun p => p.1 ∈ allowedAttributes)))
        else none) = some t := hf
    by_cases hn : name ∈ allowedTags
    · rw [if_pos hn] at hf'
      cases hf'
      simp only [List.mem_map] at ha
      obtain ⟨p, hp, hpa⟩ := ha
      rw [List.mem_filter] at hp
      subst hpa
      exact of_decide_eq_true hp.2
    · rw [if_neg hn] at hf'
      cases hf'
  | endTag name =>
    have hf' : (if name ∈ allowedTags
        then some (HTMLTok.endTag name) else none) = some t := hf
    by_cases hn : name ∈ allowedTags
    · rw [if_pos hn] at hf'
      cases hf'
      simp at ha
    · rw [if_neg hn] at hf'
      cases hf'
  | textTok str =>
    have hf' : some (HTMLTok.textTok str) = some t := hf
    cases hf'
    simp at ha

/-- C2: sanitization runs before the format branch — the `html` format
returns exactly the sanitized stream, and the Markdown and text
converters are only ever applied to the sanitized stream — and the
sanitized stream contains no tag outside the tag allow-list and no
attribute outside the attribute allow-list. -/
theorem C2_sanitize_before_format (toks : List HTMLTok) :
    (∀ nm ∈ tagNamesOf (sanitizeHTMLAllowingToks toks), nm ∈ allowedTags)
    ∧ (∀ a ∈ attrNamesOf (sanitizeHTMLAllowingToks toks), a ∈ allowedAttributes)
    ∧ (∀ mdConv txtConv, extractAndTransformTokens mdConv txtConv toks "html"
        = .ok (.htmlOut (sanitizeHTMLAllowingToks toks)))
    ∧ (∀ mdConv txtConv out,
        extractAndTransformTokens mdConv txtConv toks "md" = .ok out →
        ∃ m, mdConv (sanitizeHTMLAllowingToks toks) = .ok m ∧ out = .textOut m)
    ∧ (∀ mdConv txtConv out,
        extractAndTransformTokens mdConv txtConv toks "txt" = .ok out →
        ∃ t, txtConv (sanitizeHTMLAllowingToks toks) = .ok t ∧ out = .textOut t) := by
  refine ⟨fun nm h => mem_tagNames_sanitized toks nm h,
    fun a h => mem_attrNames_sanitized toks a h, fun _ _ => rfl, ?_, ?_⟩
  · intro mdConv txtConv out h
    have h' : (match mdConv (sanitizeHTMLAllowingToks toks) with
      | Except.ok m => Except.ok (TransformOut.textOut m)
      | Except.error e =>
        Except.error (TransformError.markdownConversionError e)) = .ok out := h
    cases hm : mdConv (sanitizeHTMLAllowingToks toks) with
    | error e => rw [hm] at h'; cases h'
    | ok m =>
      rw [hm] at h'
      cases h'
      exact ⟨m, rfl, rfl⟩
  · intro mdConv txtConv out h
    have h' : (match txtConv (sanitizeHTMLAllowingToks toks) with
      | Except.ok t => Except.ok (TransformOut.textOut t)
      | Except.error e =>
        Except.error (TransformError.textConversionError e)) = .ok out := h
    cases hm : txtConv (sanitizeHTMLAllowingToks toks) with
    | error e => rw [hm] at h'; cases h'
    | ok t =>
      rw [hm] at h'
      cases h'
      exact ⟨t, rfl, rfl⟩

theorem C2_witness :
    (∀ nm ∈ tagNamesOf (sanitizeHTMLAllowingToks
        [.startTag "script" [("onload", "evil()")], .textTok "evil()",
         .endTag "script", .startTag "p" [("style", "x"), ("title", "t")],
         .textTok "hi", .endTag "p"]), nm ∈ allowedTags)
    ∧ (∀ a ∈ attrNamesOf (sanitizeHTMLAllowingToks
        [.startTag "script" [("onload", "evil()")], .textTok "evil()",
         .endTag "script", .startTag "p" [("style", "x"), ("title", "t")],
         .textTok "hi", .endTag "p"]), a ∈ allowedAttributes)
    ∧ ∃ m, (fun _ => Except.ok "md out" : List HTMLTok → Except String String)
        (sanitizeHTMLAllowingToks
          [.startTag "script" [("onload", "evil()")], .textTok "evil()",
           .endTag "script", .startTag "p" [("style", "x"), ("title", "t")],
           .textTok "hi", .endTag "p"]) = .ok m ∧ (.textOut "md out" : TransformOut) = .textOut m := by
  refine ⟨(C2_sanitize_before_format _).1, (C2_sanitize_before_format _).2.1, ?_⟩
  exact (C2_sanitize_before_format
      [.startTag "script" [("onload", "evil()")], .textTok "evil()",
       .endTag "script", .startTag "p" [("style", "x"), ("title", "t")],
       .textTok "hi", .endTag "p"]).2.2.2.1
    (fun _ => Except.ok "md out") (fun _ => Except.ok "txt out")
    (.textOut "md out") rfl

theorem getAttrVal_map_replace (attrs : List (String × String))
    (name v w : String) (h : getAttrVal attrs name = some w) :
    getAttrVal (attrs.map (fun p => if p.1 = name then (p.1, v) else p)) name
      = some v := by
  induction attrs with
  | nil => simp [getAttrVal] at h
  | cons a rest ih =>
    by_cases ha : a.1 = name
    · simp [getAttrVal, List.find?_cons_of_pos, ha]
    · have h' : getAttrVal rest name = some w := by
        simpa [getAttrVal, List.find?_cons_of_neg, ha] using h
      simpa [getAttrVal, List.find?_cons_of_neg, ha] using ih h'

theorem getAttrVal_setAttrVal (attrs : List (String × String))
    (name v w : String) (h : getAttrVal attrs name = some w) :
    getAttrVal (setAttrVal attrs name v) name = some v := by
  have hany : attrs.any (fun p => p.1 = name) = true := by
    unfold getAttrVal at h
    cases hf : attrs.find? (fun p => decide (p.1 = name)) with
    | none => rw [hf] at h; cases h
    | some p =>
      have hpred := List.find?_some hf
      exact List.any_eq_true.mpr ⟨p, List.mem_of_find?_eq_some hf, hpred⟩
  unfold setAttrVal
  rw [if_pos hany]
  exact getAttrVal_map_replace attrs name v w h

mutual

theorem fixRelativeUrls_elemAttrs (host : String) (t : Node) :
    elemAttrsOf (fixRelativeUrls host t)
      = (elemAttrsOf t).map (fun e => (e.1, fixElemAttrs host e.1 e.2)) :=
  match t with
  | .text _ => rfl
  | .elem tag attrs cs => by
    simp [fixRelativeUrls, elemAttrsOf, fixRelativeUrlsList_elemAttrs host cs]

theorem fixRelativeUrlsList_elemAttrs (host : String) (cs : List Node) :
    elemAttrsOfList (fixRelativeUrlsList host cs)
      = (elemAttrsOfList cs).map (fun e => (e.1, fixElemAttrs host e.1 e.2)) :=
  match cs with
  | [] => rfl
  | n :: rest => by
    simp [fixRelativeUrlsList, elemAttrsOfList,
      fixRelativeUrls_elemAttrs host n, fixRelativeUrlsList_elemAttrs host rest]

end

/-- C6: `fixRelativeUrls` rewrites attributes element-wise across the whole
document; on an `a` element with an `href`, the `href` becomes the
reference resolved against the page origin exactly when it is relative
and not an in-page anchor, and is untouched otherwise. In particular,
against origin `https://x.test` an `href` of `/a/b` becomes
`https://x.test/a/b`, and an `href` of `#top` is left unmodified. -/
theorem C6_anchor_rewriting :
    (∀ host t, elemAttrsOf (fixRelativeUrls host t)
        = (elemAttrsOf t).map (fun e => (e.1, fixElemAttrs host e.1 e.2)))
    ∧ (∀ host attrs href w, getAttrVal attrs "href" = some href →
        w = (if isRelativeURL href ∧ ¬ isAnchorLink href
             then toAbsoluteURL host href else href) →
        getAttrVal (fixElemAttrs host "a" attrs) "href" = some w)
    ∧ toAbsoluteURL "https://x.test" "/a/b" = "https://x.test/a/b"
    ∧ fixElemAttrs "https://x.test" "a" [("href", "#top")] = [("href", "#top")]
    ∧ isAnchorLink "#top" = true := by
  refine ⟨fixRelativeUrls_elemAttrs, ?_, by decide, by decide, rfl⟩
  intro host attrs href w h hw
  unfold fixElemAttrs convertAttrToAbsolute
  rw [if_pos rfl, h]
  show getAttrVal
      (if isRelativeURL href ∧ ¬ isAnchorLink href
       then setAttrVal attrs "href" (toAbsoluteURL host href) else attrs)
      "href" = some w
  by_cases hc : isRelativeURL href ∧ ¬ isAnchorLink href
  · rw [if_pos hc]
    rw [hw, if_pos hc]
    exact getAttrVal_setAttrVal attrs "href" (toAbsoluteURL host href) href h
  · rw [if_neg hc]
    rw [hw, if_neg hc]
    exact h

theorem C6_witness :
    getAttrVal (fixElemAttrs "https://x.test" "a" [("href", "/a/b")]) "href"
      = some "https://x.test/a/b" := by
  have := C6_anchor_rewriting.2.1 "https://x.test" [("href", "/a/b")] "/a/b"
    "https://x.test/a/b" (by decide)
    (by rw [if_pos (by decide)]; decide)
  exact this

/-- C7: rendering `<ul><li>a</li><li>b</li></ul>` at the top level yields
exactly `- a\n- b\n\n` — each item prefixed with `- `, a newline after
each item, and the trailing blank line added at depth 0 — while the same
list rendered at depth 1 gets three-space indentation and no trailing
blank line. -/
theorem C7_ul_rendering :
    htmlToText [.elem "ul" []
        [.elem "li" [] [.text "a"], .elem "li" [] [.text "b"]]]
      = "- a\n- b\n\n"
    ∧ handleList "" [.elem "li" [] [.text "a"], .elem "li" [] [.text "b"]]
        1 false
      = "   - a\n   - b\n" := by
  constructor
  · simp [htmlToText, handleElement, handleList, handleListItems,
      handleLiContents, handleNestedLists, handleChildren, childNodes,
      nodeName, isElemNode, stripNewlines, textOfList, textOf, isHeadingTag,
      listIndent, strEndsWith, listStartsWith, handleTable, handleAnchor,
      handleImage]
  · simp [handleList, handleListItems, handleLiContents, handleNestedLists,
      handleElement, handleChildren, childNodes, nodeName, isElemNode,
      stripNewlines, textOfList, textOf, isHeadingTag, listIndent,
      strEndsWith, listStartsWith]

end SitemapExport
